import Mathlib

/-
Verification of the multi-provider stock-data core: the fallback
orchestrator (`executeWithFallback` / `toUserErrorMessage`), the local
indicator engine (`ema`, `calculateRsiFromCandles`,
`calculateMacdFromCandles` from `build/lib/indicators.js`), and the
provider adapters' normalization logic (`FinnhubClient.getQuote`,
`FinnhubClient.getCandles`, `FinnhubClient.getMacd`,
`AlphaVantageClient.getQuote`, `AlphaVantageClient.getCandles`).

JavaScript numbers are modelled as rationals (ℚ): every arithmetic
operation appearing in the claims is exact at the inputs considered, and
ℚ keeps those computations exact.  In ℚ division by zero yields 0 where
JS would yield NaN; accordingly statements about `ema` carry the
hypothesis `0 < period`, which every caller in the repository satisfies
(tool input validation enforces period ≥ 2).  Upstream JSON payloads are
modelled post-parse: a field that may be absent or unparseable becomes
an `Option`, mirroring `toNumber` and the `?.` / `??` accesses.
-/

namespace Stock

/- Normalized data model, from src/providers/types.ts.
   (`open` is a Lean keyword, so the open-price field is named `opn`.) -/

structure Candle where
  timestamp : Int
  opn : ℚ
  high : ℚ
  low : ℚ
  close : ℚ
  volume : ℚ
deriving Repr, DecidableEq

structure RsiPoint where
  timestamp : Int
  value : ℚ
deriving Repr, DecidableEq

structure MacdPoint where
  timestamp : Int
  macd : ℚ
  signal : ℚ
  histogram : ℚ
deriving Repr, DecidableEq

structure NormalizedQuote where
  symbol : String
  price : ℚ
  change : ℚ
  percentChange : ℚ
  high : ℚ
  low : ℚ
  opn : ℚ
  previousClose : ℚ
  timestamp : Option Int
  source : String
deriving Repr, DecidableEq

/- Error taxonomy, from build/providers/http.js (`ProviderError`). -/

inductive ErrorCode where
  | AUTH
  | RATE_LIMIT
  | NOT_FOUND
  | UPSTREAM
  | BAD_RESPONSE
  | NETWORK
deriving Repr, DecidableEq

structure ProviderError where
  provider : String
  code : ErrorCode
  message : String
  status : Option Nat := none
deriving Repr, DecidableEq

/- Indicator engine, from build/lib/indicators.js. -/

/-- The body of `ema`'s recurrence loop (`for (let i = period; ...)`):
each step is `previous = (values[i] - previous) * multiplier + previous`. -/
def emaSteps (m : ℚ) : ℚ → List ℚ → List ℚ
  | _, [] => []
  | prev, v :: vs =>
    let nxt := (v - prev) * m + prev
    nxt :: emaSteps m nxt vs

/-- `ema(values, period)` from build/lib/indicators.js: `[]` when the
input is shorter than `period`; otherwise `period − 1` leading nulls, the
simple mean of the first `period` values at index `period − 1`, then the
EMA recurrence for the remaining indices. -/
def ema (values : List ℚ) (period : ℕ) : List (Option ℚ) :=
  if values.length < period then []
  else
    let m : ℚ := 2 / (period + 1)
    let seed : ℚ := (values.take period).sum / period
    List.replicate (period - 1) (none : Option ℚ) ++
      some seed :: (emaSteps m seed (values.drop period)).map some

/-- Consecutive close deltas: `delta = closes[i] - closes[i-1]` for
`i = 1 .. closes.length - 1`. -/
def deltas (closes : List ℚ) : List ℚ :=
  List.zipWith (fun b a => b - a) closes.tail closes

/-- `gains.push(Math.max(delta, 0))` over all deltas. -/
def rsiGains (closes : List ℚ) : List ℚ :=
  (deltas closes).map (fun d => max d 0)

/-- `losses.push(Math.max(-delta, 0))` over all deltas. -/
def rsiLosses (closes : List ℚ) : List ℚ :=
  (deltas closes).map (fun d => max (-d) 0)

/-- The emission loop of `calculateRsiFromCandles`
(`for (let i = period; i < gains.length; ...)`): Wilder smoothing of the
running average gain/loss, RSI = 100 on the `avgLoss === 0` branch and
`100 - 100/(1 + avgGain/avgLoss)` otherwise, one point per remaining
(gain, loss) pair, stamped with `candles[i+1].timestamp`. -/
def rsiLoop (p : ℚ) : ℚ → ℚ → List (ℚ × ℚ) → List Int → List RsiPoint
  | _, _, [], _ => []
  | _, _, _ :: _, [] => []
  | aG, aL, (g, l) :: rest, ts :: tss =>
    let aG2 := (aG * (p - 1) + g) / p
    let aL2 := (aL * (p - 1) + l) / p
    let rsi := if aL2 = 0 then (100 : ℚ) else 100 - 100 / (1 + aG2 / aL2)
    ⟨ts, rsi⟩ :: rsiLoop p aG2 aL2 rest tss

/-- The running average-loss values produced by the same loop: the
projection of `rsiLoop`'s smoothed `avgLoss` state at each emitted step. -/
def rsiLossTrace (p : ℚ) : ℚ → List ℚ → List ℚ
  | _, [] => []
  | aL, l :: rest =>
    let aL2 := (aL * (p - 1) + l) / p
    aL2 :: rsiLossTrace p aL2 rest

/-- `calculateRsiFromCandles(candles, period)` from
build/lib/indicators.js. -/
def calculateRsiFromCandles (candles : List Candle) (period : ℕ) : List RsiPoint :=
  if candles.length ≤ period then []
  else
    let closes := candles.map Candle.close
    let gains := rsiGains closes
    let losses := rsiLosses closes
    let aG := (gains.take period).sum / period
    let aL := (losses.take period).sum / period
    rsiLoop period aG aL ((gains.drop period).zip (losses.drop period))
      ((candles.drop (period + 1)).map Candle.timestamp)

/-- The MACD-line entry at one index:
`fast[i] === null || slow[i] === null ? null : fast[i] - slow[i]`.
(Both EMA sequences have the full `closes.length` whenever their period
is at most `closes.length`, which holds for every in-range index under
the callers' `fastPeriod < slowPeriod` validation.) -/
def macdLineAt (fast slow : List (Option ℚ)) (i : ℕ) : Option ℚ :=
  match fast.getD i none, slow.getD i none with
  | some f, some s => some (f - s)
  | _, _ => none

/-- The output loop of `calculateMacdFromCandles`: walk the MACD line
paired with candle timestamps, skip null MACD entries, consume one
signal-line entry per non-null MACD entry (the `signalCursor`), skip
when that entry is null or past the end, else emit
`{timestamp, macd, signal, histogram: macd - signal}`. -/
def macdEmit : List (Option ℚ × Int) → List (Option ℚ) → List MacdPoint
  | [], _ => []
  | (none, _) :: rest, sigs => macdEmit rest sigs
  | (some _, _) :: rest, [] => macdEmit rest []
  | (some _, _) :: rest, none :: sigs => macdEmit rest sigs
  | (some m, ts) :: rest, some s :: sigs => ⟨ts, m, s, m - s⟩ :: macdEmit rest sigs

/-- `calculateMacdFromCandles(candles, fast, slow, signal)` from
build/lib/indicators.js. -/
def calculateMacdFromCandles (candles : List Candle)
    (fastPeriod slowPeriod signalPeriod : ℕ) : List MacdPoint :=
  if candles.length < slowPeriod + signalPeriod then []
  else
    let closes := candles.map Candle.close
    let fast := ema closes fastPeriod
    let slow := ema closes slowPeriod
    let macdLine := (List.range closes.length).map (macdLineAt fast slow)
    let cleanMacd := macdLine.filterMap id
    let signalRaw := ema cleanMacd signalPeriod
    if signalRaw.isEmpty then []
    else macdEmit (macdLine.zip (candles.map Candle.timestamp)) signalRaw

/- Fallback orchestrator, from the server entry point
(`toUserErrorMessage` and `executeWithFallback`). -/

/-- The observable behaviour of one zero-argument async fetcher as seen
by `executeWithFallback`: it resolves with data, resolves with
null/empty (`noData`), rejects with a `ProviderError`
(`providerFailure`), or rejects with some other exception
(`otherFailure`, which the orchestrator swallows without recording). -/
inductive FetchOutcome (T : Type) where
  | success (value : T)
  | noData
  | providerFailure (e : ProviderError)
  | otherFailure
deriving Repr, DecidableEq

/-- The argument object of `executeWithFallback`: tool name plus the
optional primary and fallback fetchers, each represented by its
outcome. -/
structure FallbackArgs (T : Type) where
  toolName : String
  primary : Option (FetchOutcome T)
  fallback : Option (FetchOutcome T)
deriving Repr, DecidableEq

/-- The result object `{data, source?, warning?, error?}`. -/
structure FallbackResult (T : Type) where
  data : Option T
  source : Option String := none
  warning : Option String := none
  error : Option String := none
deriving Repr, DecidableEq

/-- The terminal user-facing message for a rate-limit failure. -/
def rateLimitMsg (tool : String) : String :=
  tool ++ " failed: provider rate limit reached. Try again shortly or add higher-tier API keys."

/-- The terminal user-facing message for an authentication failure. -/
def authMsg (tool : String) : String :=
  tool ++ " failed: missing or invalid API key. Check FINNHUB_API_KEY and ALPHAVANTAGE_API_KEY."

/-- The terminal user-facing message for not-found / no-data failures. -/
def notFoundMsg (tool : String) : String :=
  tool ++ " failed: symbol may be unsupported or unavailable for this request window."

/-- The generic terminal user-facing message. -/
def genericMsg (tool : String) : String :=
  tool ++ " failed due to provider/network errors. Try again in a moment."

/-- `errors.some((error) => error.code === c)`. -/
def hasCode (errors : List ProviderError) (c : ErrorCode) : Bool :=
  errors.any (fun e => e.code = c)

/-- `toUserErrorMessage(tool, errors, hadNoData)` from the server entry
point: priority RATE_LIMIT, then AUTH, then NOT_FOUND-or-no-data, then
generic. -/
def toUserErrorMessage (tool : String) (errors : List ProviderError)
    (hadNoData : Bool) : String :=
  if hasCode errors .RATE_LIMIT then rateLimitMsg tool
  else if hasCode errors .AUTH then authMsg tool
  else if hasCode errors .NOT_FOUND || hadNoData then notFoundMsg tool
  else genericMsg tool

/-- The `primaryNoData` flag of `executeWithFallback`: set exactly when
the configured primary fetcher resolves with null. -/
def primaryNoData {T : Type} (args : FallbackArgs T) : Bool :=
  match args.primary with
  | some .noData => true
  | _ => false

/-- The errors recorded by the primary attempt: a thrown
`ProviderError` is pushed; any other exception is ignored. -/
def primaryRecorded {T : Type} (args : FallbackArgs T) : List ProviderError :=
  match args.primary with
  | some (.providerFailure e) => [e]
  | _ => []

/-- The errors recorded by the fallback attempt, when it is reached. -/
def fallbackRecorded {T : Type} (args : FallbackArgs T) : List ProviderError :=
  match args.fallback with
  | some (.providerFailure e) => [e]
  | _ => []

/-- `executeWithFallback`, instrumented: the returned pair is the result
object together with a flag recording whether the fallback fetcher was
invoked.  Control flow follows the source: a successful primary returns
immediately with source "Finnhub"; otherwise the fallback (when
configured) is invoked, a successful fallback returns with source
"Alpha Vantage" and the warning chosen by
`errors.length ? ... : primaryNoData ? ... : undefined`; otherwise the
terminal error message is produced from the recorded errors and the
`primaryNoData` flag. -/
def executeWithFallbackT {T : Type} (args : FallbackArgs T) :
    FallbackResult T × Bool :=
  match args.primary with
  | some (.success v) => (⟨some v, some "Finnhub", none, none⟩, false)
  | _ =>
    match args.fallback with
    | some (.success v) =>
      (⟨some v, some "Alpha Vantage",
        (if (primaryRecorded args).isEmpty then
          (if primaryNoData args then
            some "Used fallback provider because primary returned no data."
          else none)
        else some "Used fallback provider due to primary provider error."),
        none⟩, true)
    | some (.providerFailure e) =>
      (⟨none, none, none,
        some (toUserErrorMessage args.toolName (primaryRecorded args ++ [e])
          (primaryNoData args))⟩, true)
    | some .noData =>
      (⟨none, none, none,
        some (toUserErrorMessage args.toolName (primaryRecorded args)
          (primaryNoData args))⟩, true)
    | some .otherFailure =>
      (⟨none, none, none,
        some (toUserErrorMessage args.toolName (primaryRecorded args)
          (primaryNoData args))⟩, true)
    | none =>
      (⟨none, none, none,
        some (toUserErrorMessage args.toolName (primaryRecorded args)
          (primaryNoData args))⟩, false)

/-- `executeWithFallback`: the result object alone. -/
def executeWithFallback {T : Type} (args : FallbackArgs T) : FallbackResult T :=
  (executeWithFallbackT args).1

/-- Whether the fallback fetcher gets invoked. -/
def fallbackInvoked {T : Type} (args : FallbackArgs T) : Bool :=
  (executeWithFallbackT args).2

/-- All `ProviderError`s accumulated in the `errors` array over a whole
run: none when the primary succeeds (early return), otherwise the
primary's recorded error followed by the fallback's. -/
def recordedErrors {T : Type} (args : FallbackArgs T) : List ProviderError :=
  match args.primary with
  | some (.success _) => []
  | _ => primaryRecorded args ++ fallbackRecorded args

/- Provider adapters: payloads modelled post-parse, absent or
unparseable upstream fields as `none`. -/

/-- Finnhub `/quote` payload (src/providers/finnhub.ts `getQuote`). -/
structure FinnhubQuotePayload where
  c : Option ℚ := none
  d : Option ℚ := none
  dp : Option ℚ := none
  h : Option ℚ := none
  l : Option ℚ := none
  o : Option ℚ := none
  pc : Option ℚ := none
  t : Option Int := none
deriving Repr, DecidableEq

/-- `FinnhubClient.getQuote` normalization: null when the current price
is absent, zero (JS falsy) or non-positive; otherwise the normalized
quote with the price substituted for missing high/low/open/prevClose. -/
def finnhubGetQuote (symbol : String) (p : FinnhubQuotePayload) :
    Option NormalizedQuote :=
  match p.c with
  | none => none
  | some c =>
    if c ≤ 0 then none
    else some ⟨symbol, c, p.d.getD 0, p.dp.getD 0, p.h.getD c, p.l.getD c,
      p.o.getD c, p.pc.getD c, p.t, "finnhub"⟩

/-- Alpha Vantage `GLOBAL_QUOTE` fields, post `toNumber` (the `%` strip
on the change-percent string happens before parsing). -/
structure AlphaQuoteFields where
  price : Option ℚ := none
  chg : Option ℚ := none
  chgPct : Option ℚ := none
  high : Option ℚ := none
  low : Option ℚ := none
  opn : Option ℚ := none
  prevClose : Option ℚ := none
deriving Repr, DecidableEq

/-- `AlphaVantageClient.getQuote` normalization: null when the
`Global Quote` object is missing or its price is absent or
non-positive. -/
def alphaGetQuote (symbol : String) (quote : Option AlphaQuoteFields) :
    Option NormalizedQuote :=
  match quote with
  | none => none
  | some q =>
    match q.price with
    | none => none
    | some price =>
      if price ≤ 0 then none
      else some ⟨symbol, price, q.chg.getD 0, q.chgPct.getD 0,
        q.high.getD price, q.low.getD price, q.opn.getD price,
        q.prevClose.getD price, none, "alphavantage"⟩

/-- One `[timestamp, values]` entry of an Alpha Vantage time-series
map, post-parse: `seconds` is the parsed epoch timestamp of the key
(`none` when `Date` parsing fails), the OHLC fields are the parsed
`"1. open"` .. `"4. close"` strings, and `vol5`/`vol6` the two volume
key variants. -/
structure SeriesEntry where
  seconds : Option Int := none
  opn : Option ℚ := none
  high : Option ℚ := none
  low : Option ℚ := none
  close : Option ℚ := none
  vol5 : Option ℚ := none
  vol6 : Option ℚ := none
deriving Repr, DecidableEq

/-- `parseSeriesEntry` from src/providers/alphavantage.ts: null when the
timestamp or any of open/high/low/close fails to parse; volume defaults
through `"5. volume" ?? "6. volume" ?? 0`. -/
def parseSeriesEntry (e : SeriesEntry) : Option Candle :=
  match e.seconds with
  | none => none
  | some ts =>
    match e.opn, e.high, e.low, e.close with
    | some o, some h, some l, some c =>
      some ⟨ts, o, h, l, c, e.vol5.getD (e.vol6.getD 0)⟩
    | _, _, _, _ => none

/-- The parse-and-filter stage of `AlphaVantageClient.getCandles`:
parseable entries whose timestamp lies in `[fromTs, toTs]` inclusive,
in upstream entry order. -/
def parsedInWindow (entries : List SeriesEntry) (fromTs toTs : Int) :
    List Candle :=
  (entries.filterMap parseSeriesEntry).filter
    (fun c => fromTs ≤ c.timestamp && c.timestamp ≤ toTs)

/-- The ascending-timestamp comparator `(a, b) => a.timestamp - b.timestamp`. -/
def candleLe (a b : Candle) : Bool :=
  a.timestamp ≤ b.timestamp

/-- `AlphaVantageClient.getCandles` normalization: null when the series
key is missing from the payload; otherwise parse each map entry, drop
unparseable ones, keep `[from, to]` inclusive, and sort ascending by
timestamp. -/
def alphaGetCandles (series : Option (List SeriesEntry)) (fromTs toTs : Int) :
    Option (List Candle) :=
  match series with
  | none => none
  | some entries =>
    some ((parsedInWindow entries fromTs toTs).mergeSort candleLe)

/-- Finnhub `/stock/candle` payload (parallel arrays plus status). -/
structure FinnhubCandlePayload where
  s : Option String := none
  t : Option (List Int) := none
  o : Option (List ℚ) := none
  h : Option (List ℚ) := none
  l : Option (List ℚ) := none
  c : Option (List ℚ) := none
  v : Option (List ℚ) := none
deriving Repr, DecidableEq

/-- `data.x?.[index] ?? 0`: element of an optional parallel array, 0
when the array is absent or the index is out of range. -/
def arrAt (a : Option (List ℚ)) (i : ℕ) : ℚ :=
  ((a.getD []).getD i 0)

/-- `FinnhubClient.getCandles` normalization: null unless the status is
`"ok"` and the timestamp array is non-empty; otherwise one candle per
timestamp, in upstream array order, each missing parallel-array entry
replaced by 0.  No sorting and no `[from, to]` filtering happen
client-side (the range is only forwarded upstream). -/
def finnhubGetCandles (p : FinnhubCandlePayload) : Option (List Candle) :=
  match p.s, p.t with
  | some "ok", some ts =>
    if ts.isEmpty then none
    else some (ts.enum.map (fun iv =>
      ⟨iv.2, arrAt p.o iv.1, arrAt p.h iv.1, arrAt p.l iv.1,
        arrAt p.c iv.1, arrAt p.v iv.1⟩))
  | _, _ => none

/-- Finnhub `/indicator` MACD payload (parallel arrays plus status). -/
structure FinnhubMacdPayload where
  s : Option String := none
  t : Option (List Int) := none
  macd : Option (List ℚ) := none
  signal : Option (List ℚ) := none
  histogram : Option (List ℚ) := none
deriving Repr, DecidableEq

/-- `FinnhubClient.getMacd` normalization: null unless the status is
`"ok"` and the timestamp/macd/signal arrays are non-empty; otherwise one
point per timestamp whose macd and signal entries are both present,
with `histogram: data.histogram?.[index] ?? 0` taken from the upstream
histogram array, not recomputed. -/
def finnhubGetMacd (p : FinnhubMacdPayload) : Option (List MacdPoint) :=
  match p.s, p.t, p.macd, p.signal with
  | some "ok", some ts, some macds, some sigs =>
    if ts.isEmpty || macds.isEmpty || sigs.isEmpty then none
    else some (ts.enum.filterMap (fun iv =>
      match macds.get? iv.1, sigs.get? iv.1 with
      | some m, some sg => some ⟨iv.2, m, sg, arrAt p.histogram iv.1⟩
      | _, _ => none))
  | _, _, _, _ => none

/- Helper lemmas about the orchestrator. -/

theorem hasCode_iff (errors : List ProviderError) (c : ErrorCode) :
    hasCode errors c = true ↔ ∃ e ∈ errors, e.code = c := by
  simp [hasCode, List.any_eq_true]

theorem hasCode_eq_false_iff (errors : List ProviderError) (c : ErrorCode) :
    hasCode errors c = false ↔ ¬ ∃ e ∈ errors, e.code = c := by
  rw [← Bool.not_eq_true, not_iff_not, hasCode_iff]

theorem toUserErrorMessage_rateLimit (tool : String)
    (errors : List ProviderError) (hadNoData : Bool)
    (h : hasCode errors .RATE_LIMIT = true) :
    toUserErrorMessage tool errors hadNoData = rateLimitMsg tool := by
  simp [toUserErrorMessage, h]

theorem toUserErrorMessage_auth (tool : String)
    (errors : List ProviderError) (hadNoData : Bool)
    (h1 : hasCode errors .RATE_LIMIT = false)
    (h2 : hasCode errors .AUTH = true) :
    toUserErrorMessage tool errors hadNoData = authMsg tool := by
  simp [toUserErrorMessage, h1, h2]

theorem toUserErrorMessage_notFound (tool : String)
    (errors : List ProviderError) (hadNoData : Bool)
    (h1 : hasCode errors .RATE_LIMIT = false)
    (h2 : hasCode errors .AUTH = false)
    (h3 : hasCode errors .NOT_FOUND = true ∨ hadNoData = true) :
    toUserErrorMessage tool errors hadNoData = notFoundMsg tool := by
  rcases h3 with h3 | h3 <;> simp [toUserErrorMessage, h1, h2, h3]

/-- On every run that ends with no data, the result's error string is
`toUserErrorMessage` applied to the accumulated errors and the
primary-no-data flag. -/
theorem terminal_error_eq {T : Type} (args : FallbackArgs T)
    (h : (executeWithFallback args).data = none) :
    (executeWithFallback args).error =
      some (toUserErrorMessage args.toolName (recordedErrors args)
        (primaryNoData args)) := by
  rcases args with ⟨tool, prim, fall⟩
  rcases prim with _ | po <;> rcases fall with _ | fo
  all_goals try rcases po
  all_goals try rcases fo
  all_goals
    simp_all [executeWithFallback, executeWithFallbackT, recordedErrors,
      primaryRecorded, fallbackRecorded, primaryNoData]

theorem primaryNoData_of_noData {T : Type} (args : FallbackArgs T)
    (h : args.primary = some FetchOutcome.noData) :
    primaryNoData args = true := by
  simp [primaryNoData, h]

/-- Claim C1: on a terminal failure (no data from either source), a
recorded RATE_LIMIT error — from whichever provider — forces the
rate-limit terminal message, ahead of every other kind; with no
RATE_LIMIT but a recorded AUTH error, the auth message is produced. -/
theorem claim1_rate_limit_priority {T : Type} (args : FallbackArgs T)
    (hterm : (executeWithFallback args).data = none) :
    ((∃ e ∈ recordedErrors args, e.code = ErrorCode.RATE_LIMIT) →
      (executeWithFallback args).error = some (rateLimitMsg args.toolName)) ∧
    ((¬ ∃ e ∈ recordedErrors args, e.code = ErrorCode.RATE_LIMIT) →
      (∃ e ∈ recordedErrors args, e.code = ErrorCode.AUTH) →
      (executeWithFallback args).error = some (authMsg args.toolName)) := by
  constructor
  · intro hrl
    rw [terminal_error_eq args hterm]
    rw [toUserErrorMessage_rateLimit _ _ _ ((hasCode_iff _ _).mpr hrl)]
  · intro hnrl hauth
    rw [terminal_error_eq args hterm]
    rw [toUserErrorMessage_auth _ _ _ ((hasCode_eq_false_iff _ _).mpr hnrl)
      ((hasCode_iff _ _).mpr hauth)]

def c1ArgsRateLimit : FallbackArgs Unit :=
  ⟨"get_stock_price",
   some (.providerFailure ⟨"finnhub", .NOT_FOUND, "symbol unknown", none⟩),
   some (.providerFailure ⟨"alphavantage", .RATE_LIMIT, "call frequency", none⟩)⟩

def c1ArgsAuth : FallbackArgs Unit :=
  ⟨"get_stock_price",
   some (.providerFailure ⟨"finnhub", .NETWORK, "socket hang up", none⟩),
   some (.providerFailure ⟨"alphavantage", .AUTH, "bad api key", none⟩)⟩

/-- Claim C1, instantiated: a fallback-side RATE_LIMIT dominates a
primary NOT_FOUND, and with no RATE_LIMIT an AUTH error dominates a
NETWORK error. -/
theorem claim1_witness :
    (executeWithFallback c1ArgsRateLimit).error =
      some (rateLimitMsg "get_stock_price") ∧
    (executeWithFallback c1ArgsAuth).error =
      some (authMsg "get_stock_price") :=
  ⟨(claim1_rate_limit_priority c1ArgsRateLimit (by decide)).1 (by decide),
   (claim1_rate_limit_priority c1ArgsAuth (by decide)).2 (by decide) (by decide)⟩

def c2Args : FallbackArgs Unit :=
  ⟨"get_candles",
   some (.providerFailure ⟨"finnhub", .NETWORK, "socket hang up", none⟩),
   some .noData⟩

/-- Claim C2 counterexample: primary throws a NETWORK error and the
fallback resolves null, so no data is produced, no RATE_LIMIT, AUTH or
NOT_FOUND error is recorded, and the fallback attempt ended in the
no-data condition — yet the terminal message is the generic one, not
the "symbol may be unsupported" message: only the primary's null
outcome is fed into `toUserErrorMessage`, a fallback null is not
accumulated. -/
theorem claim2_counterexample :
    (executeWithFallback c2Args).data = none ∧
    (∀ e ∈ recordedErrors c2Args,
      e.code ≠ ErrorCode.RATE_LIMIT ∧ e.code ≠ ErrorCode.AUTH ∧
      e.code ≠ ErrorCode.NOT_FOUND) ∧
    c2Args.fallback = some FetchOutcome.noData ∧
    (executeWithFallback c2Args).error ≠ some (notFoundMsg c2Args.toolName) ∧
    (executeWithFallback c2Args).error = some (genericMsg c2Args.toolName) := by
  refine ⟨rfl, by decide, rfl, ?_, by decide⟩
  decide

/-- Claim C2 as amended: on a terminal failure with no RATE_LIMIT and
no AUTH error recorded, a recorded NOT_FOUND error (from either
provider) or a null outcome of the *primary* attempt produces the
"symbol may be unsupported or unavailable" message; a null result of
the fallback fetcher does not count toward this condition. -/
theorem claim2_not_found_message {T : Type} (args : FallbackArgs T)
    (hterm : (executeWithFallback args).data = none)
    (hnrl : ¬ ∃ e ∈ recordedErrors args, e.code = ErrorCode.RATE_LIMIT)
    (hnauth : ¬ ∃ e ∈ recordedErrors args, e.code = ErrorCode.AUTH)
    (h : (∃ e ∈ recordedErrors args, e.code = ErrorCode.NOT_FOUND) ∨
      args.primary = some FetchOutcome.noData) :
    (executeWithFallback args).error = some (notFoundMsg args.toolName) := by
  rw [terminal_error_eq args hterm]
  refine congrArg some ?_
  apply toUserErrorMessage_notFound _ _ _ ((hasCode_eq_false_iff _ _).mpr hnrl)
    ((hasCode_eq_false_iff _ _).mpr hnauth)
  rcases h with h | h
  · exact Or.inl ((hasCode_iff _ _).mpr h)
  · exact Or.inr (primaryNoData_of_noData args h)

def c2AmendedArgs : FallbackArgs Unit :=
  ⟨"get_quote",
   some .noData,
   some (.providerFailure ⟨"alphavantage", .NOT_FOUND, "unknown symbol", none⟩)⟩

/-- Claim C2 (amended), instantiated: primary null plus a fallback
NOT_FOUND error yields the "symbol may be unsupported" message. -/
theorem claim2_witness :
    (executeWithFallback c2AmendedArgs).error =
      some (notFoundMsg "get_quote") :=
  claim2_not_found_message c2AmendedArgs (by decide) (by decide) (by decide)
    (by decide)

/-- Claim C3: when the primary fetcher resolves non-null, the
orchestrator returns that data with source "Finnhub", no warning and no
error, and the fallback fetcher is never invoked. -/
theorem claim3_primary_short_circuit {T : Type} (args : FallbackArgs T) (v : T)
    (h : args.primary = some (FetchOutcome.success v)) :
    executeWithFallback args =
      ⟨some v, some "Finnhub", none, none⟩ ∧
    fallbackInvoked args = false := by
  constructor <;>
    simp [executeWithFallback, fallbackInvoked, executeWithFallbackT, h]

def c3Args : FallbackArgs Nat :=
  ⟨"get_quote", some (.success 42),
   some (.providerFailure ⟨"alphavantage", .RATE_LIMIT, "call frequency", none⟩)⟩

/-- Claim C3, instantiated at a primary that resolves with data. -/
theorem claim3_witness :
    executeWithFallback c3Args = ⟨some 42, some "Finnhub", none, none⟩ ∧
    fallbackInvoked c3Args = false :=
  claim3_primary_short_circuit c3Args 42 rfl

/- Helper lemmas about the EMA recurrence. -/

theorem emaSteps_length (m : ℚ) (prev : ℚ) (vs : List ℚ) :
    (emaSteps m prev vs).length = vs.length := by
  induction vs generalizing prev with
  | nil => rfl
  | cons v vs ih => simp [emaSteps, ih]

theorem emaSteps_getD_zero (m : ℚ) (prev : ℚ) (vs : List ℚ) (h : vs ≠ []) :
    (emaSteps m prev vs).getD 0 0 = (vs.getD 0 0 - prev) * m + prev := by
  cases vs with
  | nil => exact absurd rfl h
  | cons v vs => rfl

theorem emaSteps_getD_succ (m : ℚ) (prev : ℚ) (vs : List ℚ) (j : ℕ)
    (h : j + 1 < vs.length) :
    (emaSteps m prev vs).getD (j + 1) 0 =
      (vs.getD (j + 1) 0 - (emaSteps m prev vs).getD j 0) * m +
        (emaSteps m prev vs).getD j 0 := by
  induction vs generalizing prev j with
  | nil => simp at h
  | cons v vs ih =>
    cases j with
    | zero =>
      have hvs : vs ≠ [] := by
        intro hnil
        simp [hnil] at h
      simp only [emaSteps, List.getD_cons_succ, List.getD_cons_zero]
      exact emaSteps_getD_zero m _ vs hvs
    | succ j =>
      have h' : j + 1 < vs.length := by simpa using h
      simp only [emaSteps, List.getD_cons_succ]
      exact ih _ _ h'

/-- The shape of `ema` away from the length guard, with `L := ema values
period`: `L` has the input's length, null entries before `period − 1`,
the seed mean at `period − 1`, and the EMA recurrence thereafter. -/
theorem ema_getD_of_le (values : List ℚ) (period : ℕ) (hp : 0 < period)
    (hlen : period ≤ values.length) :
    (ema values period).length = values.length ∧
    (∀ i, i < period - 1 → (ema values period).getD i none = none) ∧
    (ema values period).getD (period - 1) none =
      some ((values.take period).sum / period) ∧
    (∀ i, period ≤ i → i < values.length →
      (ema values period).getD i none =
        some (((values.getD i 0 -
            ((ema values period).getD (i - 1) none).getD 0) *
          (2 / (period + 1)) +
          ((ema values period).getD (i - 1) none).getD 0))) := by
  have hnotlt : ¬ values.length < period := not_lt.mpr hlen
  have hema : ema values period =
      List.replicate (period - 1) (none : Option ℚ) ++
        some ((values.take period).sum / period) ::
          (emaSteps (2 / (period + 1)) ((values.take period).sum / period)
            (values.drop period)).map some := by
    rw [ema, if_neg hnotlt]
  set m : ℚ := 2 / (period + 1) with hm
  set seed : ℚ := (values.take period).sum / period with hseed
  set S : List ℚ := emaSteps m seed (values.drop period) with hS
  have hSlen : S.length = values.length - period := by
    rw [hS, emaSteps_length, List.length_drop]
  have hLen : (ema values period).length = values.length := by
    rw [hema]
    simp only [List.length_append, List.length_replicate, List.length_cons,
      List.length_map]
    rw [hSlen]
    omega
  refine ⟨hLen, ?_, ?_, ?_⟩
  · intro i hi
    rw [hema, List.getD_eq_getElem?_getD, List.getElem?_append,
      if_pos (by simpa using hi)]
    simp [List.getElem?_replicate, hi]
  · rw [hema, List.getD_eq_getElem?_getD, List.getElem?_append,
      if_neg (by simp)]
    simp
  · intro i hpi hilen
    -- entry at index i, i ≥ period: element i - period of S
    have hidx : ∀ j, period ≤ j → j < values.length →
        (ema values period).getD j none = some (S.getD (j - period) 0) := by
      intro j hpj hjlen
      rw [hema, List.getD_eq_getElem?_getD, List.getElem?_append,
        if_neg (by simp; omega)]
      have hsub : j - (period - 1) = (j - period) + 1 := by omega
      rw [List.length_replicate, hsub, List.getElem?_cons_succ,
        List.getElem?_map]
      have hjS : j - period < S.length := by
        rw [hSlen]
        exact Nat.sub_lt_sub_right hpj hjlen
      rw [List.getElem?_eq_getElem hjS]
      simp [List.getD_eq_getElem?_getD, List.getElem?_eq_getElem hjS]
    have hdropD : ∀ j, period ≤ j → j < values.length →
        (values.drop period).getD (j - period) 0 = values.getD j 0 := by
      intro j hpj hjlen
      rw [List.getD_eq_getElem?_getD, List.getD_eq_getElem?_getD,
        List.getElem?_drop]
      have hpj2 : period + (j - period) = j := by omega
      rw [hpj2]
    rw [hidx i hpi hilen]
    rcases Nat.eq_or_lt_of_le hpi with heq | hlt
    · -- i = period: previous entry is the seed
      have hprev : (ema values period).getD (i - 1) none = some seed := by
        have : i - 1 = period - 1 := by omega
        rw [this]
        rw [hema, List.getD_eq_getElem?_getD, List.getElem?_append,
          if_neg (by simp)]
        simp
      rw [hprev]
      have hzero : i - period = 0 := by omega
      rw [hzero]
      have hne : values.drop period ≠ [] := by
        intro hnil
        have := congrArg List.length hnil
        simp [List.length_drop] at this
        omega
      rw [hS, emaSteps_getD_zero m seed _ hne]
      have : (values.drop period).getD 0 0 = values.getD i 0 := by
        have := hdropD i hpi hilen
        rwa [Nat.sub_eq_zero_of_le (le_of_eq heq.symm)] at this
      rw [this]
      simp
    · -- i > period: previous entry is element i - 1 - period of S
      have hprev : (ema values period).getD (i - 1) none =
          some (S.getD (i - 1 - period) 0) :=
        hidx (i - 1) (by omega) (by omega)
      rw [hprev]
      have hsub : i - period = (i - 1 - period) + 1 := by omega
      rw [hsub, hS, emaSteps_getD_succ m seed _ _ (by rw [List.length_drop]; omega)]
      rw [← hS, ← hsub, hdropD i hpi hilen]
      simp [hsub]

/-- Claim C4: for inputs at least `period` long (period ≥ 1), `ema`
returns a same-length sequence: the first `period − 1` entries null, the
entry at `period − 1` the simple mean of the first `period` values, and
each later entry `previous + (current − previous) × 2/(period+1)`; for
`period = 3` and values `[1,2,3,4,5]` the result is
`[null, null, 2, 3, 4]`; and a shorter input yields the empty sequence. -/
theorem claim4_ema_shape (values : List ℚ) (period : ℕ) (hp : 0 < period) :
    (values.length < period → ema values period = []) ∧
    (period ≤ values.length →
      (ema values period).length = values.length ∧
      (∀ i, i < period - 1 → (ema values period).getD i none = none) ∧
      (ema values period).getD (period - 1) none =
        some ((values.take period).sum / period) ∧
      (∀ i, period ≤ i → i < values.length → ∀ p,
        (ema values period).getD (i - 1) none = some p →
          (ema values period).getD i none =
            some (p + (values.getD i 0 - p) * (2 / (period + 1))))) ∧
    ema [1, 2, 3, 4, 5] 3 = [none, none, some 2, some 3, some 4] := by
  refine ⟨?_, ?_, ?_⟩
  · intro hlt
    rw [ema, if_pos hlt]
  · intro hlen
    obtain ⟨h1, h2, h3, h4⟩ := ema_getD_of_le values period hp hlen
    refine ⟨h1, h2, h3, ?_⟩
    intro i hpi hilen p hprev
    rw [h4 i hpi hilen, hprev]
    simp only [Option.getD_some]
    ring_nf
  · norm_num [ema, emaSteps, List.replicate]

/-- Claim C4, instantiated: period 3 over `[1,2,3,4,5]` gives length 5,
seed 2 at index 2, the full result `[null, null, 2, 3, 4]`, and a
too-short input `[1,2]` gives `[]`. -/
theorem claim4_witness :
    (ema [1, 2, 3, 4, 5] 3).length = 5 ∧
    (ema [1, 2, 3, 4, 5] 3).getD 2 none = some 2 ∧
    ema [1, 2, 3, 4, 5] 3 = [none, none, some 2, some 3, some 4] ∧
    ema [1, 2] 3 = [] := by
  have h := claim4_ema_shape [1, 2, 3, 4, 5] 3 (by norm_num)
  have hshort := (claim4_ema_shape [1, 2] 3 (by norm_num)).1 (by norm_num)
  obtain ⟨hlen, -, hseed, -⟩ := h.2.1 (by norm_num)
  refine ⟨by simpa using hlen, ?_, h.2.2, hshort⟩
  rw [hseed]
  norm_num

/- Helper lemmas about the RSI computation. -/

theorem rsiLoop_nil (p aG aL : ℚ) (tss : List Int) :
    rsiLoop p aG aL [] tss = [] := by
  cases tss <;> rfl

theorem deltas_length (closes : List ℚ) :
    (deltas closes).length = closes.length - 1 := by
  cases closes with
  | nil => rfl
  | cons a rest => simp [deltas]

theorem deltas_nonneg_of_chain (closes : List ℚ)
    (h : List.Chain' (· ≤ ·) closes) :
    ∀ d ∈ deltas closes, 0 ≤ d := by
  induction closes with
  | nil => intro d hd; simp [deltas] at hd
  | cons a rest ih =>
    cases rest with
    | nil => intro d hd; simp [deltas] at hd
    | cons b rest2 =>
      intro d hd
      rw [List.chain'_cons] at h
      have hstep : deltas (a :: b :: rest2) = (b - a) :: deltas (b :: rest2) := by
        simp [deltas]
      rw [hstep, List.mem_cons] at hd
      rcases hd with hd | hd
      · subst hd
        linarith [h.1]
      · exact ih h.2 d hd

theorem rsiLosses_eq_zero_of_chain (closes : List ℚ)
    (h : List.Chain' (· ≤ ·) closes) :
    ∀ l ∈ rsiLosses closes, l = 0 := by
  intro l hl
  rw [rsiLosses, List.mem_map] at hl
  obtain ⟨d, hd, hld⟩ := hl
  have := deltas_nonneg_of_chain closes h d hd
  rw [← hld]
  simp [max_eq_right]
  linarith

/-- Wilder smoothing keeps the running average loss at exactly 0 while
every incoming loss is 0: every point the loop emits takes the
`avgLoss === 0` branch and carries value 100. -/
theorem rsiLoop_all_100 (p : ℚ) (pairs : List (ℚ × ℚ)) :
    ∀ (tss : List Int) (aG : ℚ), (∀ x ∈ pairs, x.2 = 0) →
      ∀ pt ∈ rsiLoop p aG 0 pairs tss, pt.value = 100 := by
  induction pairs with
  | nil =>
    intro tss aG _ pt hpt
    rw [rsiLoop_nil] at hpt
    simp at hpt
  | cons x rest ih =>
    intro tss aG h pt hpt
    cases tss with
    | nil => simp [rsiLoop] at hpt
    | cons ts tss2 =>
      obtain ⟨g, l⟩ := x
      have hl : l = 0 := h (g, l) (List.mem_cons_self _ _)
      subst hl
      have hzero : ((0 : ℚ) * (p - 1) + 0) / p = 0 := by ring
      rw [rsiLoop] at hpt
      simp only [hzero, if_pos rfl] at hpt
      rw [List.mem_cons] at hpt
      rcases hpt with hpt | hpt
      · simp [hpt]
      · exact ih tss2 ((aG * (p - 1) + g) / p)
          (fun y hy => h y (List.mem_cons_of_mem _ hy)) pt hpt

theorem rsiLossTrace_all_zero (p : ℚ) (ls : List ℚ)
    (h : ∀ l ∈ ls, l = 0) :
    ∀ x ∈ rsiLossTrace p 0 ls, x = 0 := by
  induction ls with
  | nil => intro x hx; simp [rsiLossTrace] at hx
  | cons l rest ih =>
    intro x hx
    have hl : l = 0 := h l (List.mem_cons_self _ _)
    subst hl
    have hzero : ((0 : ℚ) * (p - 1) + 0) / p = 0 := by ring
    rw [rsiLossTrace] at hx
    simp only [hzero] at hx
    rw [List.mem_cons] at hx
    rcases hx with hx | hx
    · exact hx
    · exact ih (fun y hy => h y (List.mem_cons_of_mem _ hy)) x hx

def c5Candles : List Candle :=
  [⟨0, 0, 0, 0, 2, 0⟩, ⟨1, 0, 0, 0, 1, 0⟩, ⟨2, 0, 0, 0, 2, 0⟩,
   ⟨3, 0, 0, 0, 3, 0⟩, ⟨4, 0, 0, 0, 4, 0⟩, ⟨5, 0, 0, 0, 5, 0⟩]

/-- Claim C5 counterexample: with period 2 and closes 2,1,2,3,4,5 the
closes increase strictly for (more than) `period` consecutive steps
after the seed window (indices ≥ period), yet no emitted RSI point has
value 100: the seed window contains a loss (2 → 1), and Wilder
smoothing only decays it geometrically (avgLoss 1/4, 1/8, 1/16), so the
division formula gives 75, 87.5, 93.75. -/
theorem claim5_counterexample :
    List.Chain' (· < ·) ((c5Candles.map Candle.close).drop 2) ∧
    calculateRsiFromCandles c5Candles 2 =
      [⟨3, 75⟩, ⟨4, 175 / 2⟩, ⟨5, 375 / 4⟩] ∧
    ∀ pt ∈ calculateRsiFromCandles c5Candles 2, pt.value ≠ 100 := by
  refine ⟨?_, ?_, ?_⟩
  · norm_num [c5Candles]
  · norm_num [calculateRsiFromCandles, c5Candles, rsiGains, rsiLosses,
      deltas, rsiLoop]
  · intro pt hpt
    rw [show calculateRsiFromCandles c5Candles 2 =
        [⟨3, 75⟩, ⟨4, 175 / 2⟩, ⟨5, 375 / 4⟩] by
      norm_num [calculateRsiFromCandles, c5Candles, rsiGains, rsiLosses,
        deltas, rsiLoop]] at hpt
    fin_cases hpt <;> norm_num

/-- Claim C5 as amended: when the closes are nondecreasing from the
start (so the seed window itself contains no loss), the seed average
loss is exactly 0, the running average loss stays exactly 0 at every
emitted step, and every RSI point `calculateRsiFromCandles` emits has
value exactly 100 via the `avgLoss === 0` branch.  (Monotone growth
only after the seed window is not enough: see the counterexample.) -/
theorem claim5_rsi_100_of_nondecreasing (candles : List Candle) (period : ℕ)
    (hmono : List.Chain' (· ≤ ·) (candles.map Candle.close)) :
    ((rsiLosses (candles.map Candle.close)).take period).sum / period = 0 ∧
    (∀ x ∈ rsiLossTrace period 0
      ((rsiLosses (candles.map Candle.close)).drop period), x = 0) ∧
    (∀ pt ∈ calculateRsiFromCandles candles period, pt.value = 100) := by
  have hzeros := rsiLosses_eq_zero_of_chain _ hmono
  have hsum : ((rsiLosses (candles.map Candle.close)).take period).sum = 0 :=
    List.sum_eq_zero fun x hx => hzeros x (List.mem_of_mem_take hx)
  refine ⟨by rw [hsum]; simp, ?_, ?_⟩
  · exact rsiLossTrace_all_zero _ _
      (fun l hl => hzeros l (List.mem_of_mem_drop hl))
  · intro pt hpt
    rw [calculateRsiFromCandles] at hpt
    by_cases hlen : candles.length ≤ period
    · rw [if_pos hlen] at hpt
      simp at hpt
    · rw [if_neg hlen] at hpt
      simp only at hpt
      rw [hsum] at hpt
      simp only [zero_div] at hpt
      refine rsiLoop_all_100 period _ _ _ ?_ pt hpt
      intro x hx
      exact hzeros x.2 (List.mem_of_mem_drop (List.of_mem_zip hx).2)

def c5UpCandles : List Candle :=
  [⟨0, 0, 0, 0, 1, 0⟩, ⟨1, 0, 0, 0, 2, 0⟩, ⟨2, 0, 0, 0, 3, 0⟩,
   ⟨3, 0, 0, 0, 4, 0⟩, ⟨4, 0, 0, 0, 5, 0⟩, ⟨5, 0, 0, 0, 6, 0⟩]

/-- Claim C5 (amended), instantiated: strictly increasing closes 1..6
with period 2 emit a non-empty RSI sequence in which every value is
exactly 100. -/
theorem claim5_witness :
    calculateRsiFromCandles c5UpCandles 2 ≠ [] ∧
    ∀ pt ∈ calculateRsiFromCandles c5UpCandles 2, pt.value = 100 := by
  constructor
  · decide
  · exact (claim5_rsi_100_of_nondecreasing c5UpCandles 2
      (by norm_num [c5UpCandles])).2.2

/-- Claim C9: a candle sequence of length exactly `period + 1` (the
smallest length past the `length > period` guard) yields an empty RSI
sequence, and a non-empty RSI result forces
`candles.length ≥ period + 2`: the emission loop runs over delta
indices `period .. candles.length − 2`. -/
theorem claim9_rsi_length_threshold (candles : List Candle) (period : ℕ) :
    (candles.length = period + 1 →
      calculateRsiFromCandles candles period = []) ∧
    (calculateRsiFromCandles candles period ≠ [] →
      period + 2 ≤ candles.length) := by
  have hshort : candles.length ≤ period + 1 →
      calculateRsiFromCandles candles period = [] := by
    intro hlen
    rw [calculateRsiFromCandles]
    by_cases hle : candles.length ≤ period
    · rw [if_pos hle]
    · rw [if_neg hle]
      simp only
      have hglen : (rsiGains (candles.map Candle.close)).length = period := by
        rw [rsiGains, List.length_map, deltas_length, List.length_map]
        omega
      have hdrop : (rsiGains (candles.map Candle.close)).drop period = [] := by
        apply List.drop_eq_nil_of_le
        rw [hglen]
      rw [hdrop, List.zip_nil_left, rsiLoop_nil]
  constructor
  · intro hlen
    exact hshort (le_of_eq hlen)
  · intro hne
    by_contra hlt
    push_neg at hlt
    exact hne (hshort (by omega))

def c9Candles : List Candle :=
  [⟨0, 0, 0, 0, 1, 0⟩, ⟨1, 0, 0, 0, 3, 0⟩, ⟨2, 0, 0, 0, 2, 0⟩,
   ⟨3, 0, 0, 0, 5, 0⟩]

/-- Claim C9, instantiated: four candles give an empty RSI sequence for
period 3 (length = period + 1) but a non-empty one for period 2, and
the non-emptiness forces `4 ≥ 2 + 2`. -/
theorem claim9_witness :
    calculateRsiFromCandles c9Candles 3 = [] ∧
    2 + 2 ≤ c9Candles.length :=
  ⟨(claim9_rsi_length_threshold c9Candles 3).1 rfl,
   (claim9_rsi_length_threshold c9Candles 2).2 (by decide)⟩

/- Claim C6: the histogram invariant. -/

/-- Every point the MACD output loop emits is built with
`histogram: macd - signal`. -/
theorem macdEmit_histogram (pairs : List (Option ℚ × Int)) :
    ∀ sigs pt, pt ∈ macdEmit pairs sigs → pt.histogram = pt.macd - pt.signal := by
  induction pairs with
  | nil => intro sigs pt h; simp [macdEmit] at h
  | cons x rest ih =>
    intro sigs pt h
    obtain ⟨mo, ts⟩ := x
    cases mo with
    | none =>
      simp only [macdEmit] at h
      exact ih sigs pt h
    | some m =>
      cases sigs with
      | nil =>
        simp only [macdEmit] at h
        exact ih [] pt h
      | cons so sigs2 =>
        cases so with
        | none =>
          simp only [macdEmit] at h
          exact ih sigs2 pt h
        | some s =>
          simp only [macdEmit] at h
          rw [List.mem_cons] at h
          rcases h with h | h
          · rw [h]
          · exact ih sigs2 pt h

def c6Payload : FinnhubMacdPayload :=
  ⟨some "ok", some [1], some [1], some [0], some [5]⟩

/-- Claim C6 counterexample: `FinnhubClient.getMacd` copies the
upstream histogram array (`data.histogram?.[index] ?? 0`) instead of
recomputing it, so an upstream payload with macd 1, signal 0 and
histogram 5 normalizes to a MacdPoint whose histogram is 5 ≠ 1 − 0: the
invariant does not hold for adapter-normalized points. -/
theorem claim6_counterexample :
    finnhubGetMacd c6Payload = some [⟨1, 1, 0, 5⟩] ∧
    (⟨1, 1, 0, 5⟩ : MacdPoint).histogram ≠
      (⟨1, 1, 0, 5⟩ : MacdPoint).macd - (⟨1, 1, 0, 5⟩ : MacdPoint).signal := by
  constructor
  · rfl
  · norm_num

/-- Claim C6 as amended: `histogram = macd − signal` holds for every
point emitted by the local `calculateMacdFromCandles`; points produced
by an adapter's `getMacd` normalization instead carry the
upstream-reported histogram (0 when the upstream array is missing an
entry) and need not satisfy the identity. -/
theorem claim6_histogram_invariant (candles : List Candle)
    (fastPeriod slowPeriod signalPeriod : ℕ) :
    ∀ pt ∈ calculateMacdFromCandles candles fastPeriod slowPeriod signalPeriod,
      pt.histogram = pt.macd - pt.signal := by
  intro pt hpt
  rw [calculateMacdFromCandles] at hpt
  split at hpt
  · simp at hpt
  · simp only at hpt
    split at hpt
    · simp at hpt
    · exact macdEmit_histogram _ _ pt hpt

def c6Candles : List Candle :=
  [⟨0, 0, 0, 0, 1, 0⟩, ⟨1, 0, 0, 0, 2, 0⟩, ⟨2, 0, 0, 0, 3, 0⟩]

/-- Claim C6 (amended), instantiated: a concrete emitted MacdPoint of
`calculateMacdFromCandles` satisfies `histogram = macd − signal`. -/
theorem claim6_witness :
    (⟨1, 1/2, 1/2, 0⟩ : MacdPoint) ∈ calculateMacdFromCandles c6Candles 1 2 1 ∧
    (⟨1, 1/2, 1/2, 0⟩ : MacdPoint).histogram =
      (⟨1, 1/2, 1/2, 0⟩ : MacdPoint).macd -
        (⟨1, 1/2, 1/2, 0⟩ : MacdPoint).signal := by
  have hval : calculateMacdFromCandles c6Candles 1 2 1 =
      [⟨1, 1/2, 1/2, 0⟩, ⟨2, 1/2, 1/2, 0⟩] := by
    norm_num [calculateMacdFromCandles, c6Candles, ema, emaSteps,
      macdLineAt, macdEmit, List.replicate, List.range_succ,
      List.filterMap_cons, List.sum_cons]
  have hmem : (⟨1, 1/2, 1/2, 0⟩ : MacdPoint) ∈
      calculateMacdFromCandles c6Candles 1 2 1 := by
    rw [hval]
    exact List.mem_cons_self _ _
  exact ⟨hmem, claim6_histogram_invariant c6Candles 1 2 1 _ hmem⟩

/-- Claim C8: both quote adapters only ever return quotes with a
strictly positive price, and return null (no data) when the upstream
price is absent, zero or negative. -/
theorem claim8_quote_price_positive (symbol : String)
    (p : FinnhubQuotePayload) (aq : Option AlphaQuoteFields) :
    (∀ q, finnhubGetQuote symbol p = some q → 0 < q.price) ∧
    ((p.c = none ∨ ∃ x, p.c = some x ∧ x ≤ 0) →
      finnhubGetQuote symbol p = none) ∧
    (∀ q, alphaGetQuote symbol aq = some q → 0 < q.price) ∧
    (∀ af, aq = some af →
      (af.price = none ∨ ∃ x, af.price = some x ∧ x ≤ 0) →
      alphaGetQuote symbol aq = none) := by
  refine ⟨?_, ?_, ?_, ?_⟩
  · intro q hq
    rw [finnhubGetQuote] at hq
    split at hq
    · exact Option.noConfusion hq
    · rename_i c heq
      split at hq
      · exact Option.noConfusion hq
      · rename_i hle
        cases hq
        simpa using not_le.mp hle
  · rintro (hc | ⟨x, hx, hxle⟩)
    · simp [finnhubGetQuote, hc]
    · simp [finnhubGetQuote, hx, if_pos hxle]
  · intro q hq
    rw [alphaGetQuote.eq_def] at hq
    split at hq
    · exact Option.noConfusion hq
    · rename_i af heq
      split at hq
      · exact Option.noConfusion hq
      · rename_i price hpeq
        split at hq
        · exact Option.noConfusion hq
        · rename_i hle
          cases hq
          simpa using not_le.mp hle
  · rintro af rfl (hp | ⟨x, hx, hxle⟩)
    · simp [alphaGetQuote, hp]
    · simp [alphaGetQuote, hx, if_pos hxle]

def c8FinnhubGood : FinnhubQuotePayload := { c := some 5, d := some 1 }

def c8FinnhubZero : FinnhubQuotePayload := { c := some 0 }

def c8AlphaGood : Option AlphaQuoteFields := some { price := some 3 }

def c8AlphaNeg : Option AlphaQuoteFields := some { price := some (-2) }

/-- Claim C8, instantiated: positive upstream prices (5 and 3) pass
through with positive price; a zero Finnhub price and a negative Alpha
Vantage price produce null. -/
theorem claim8_witness :
    0 < (⟨"AAPL", 5, 1, 0, 5, 5, 5, 5, none, "finnhub"⟩ :
      NormalizedQuote).price ∧
    0 < (⟨"AAPL", 3, 0, 0, 3, 3, 3, 3, none, "alphavantage"⟩ :
      NormalizedQuote).price ∧
    finnhubGetQuote "AAPL" c8FinnhubZero = none ∧
    alphaGetQuote "AAPL" c8AlphaNeg = none := by
  refine ⟨?_, ?_, ?_, ?_⟩
  · exact (claim8_quote_price_positive "AAPL" c8FinnhubGood c8AlphaGood).1 _
      (by norm_num [finnhubGetQuote, c8FinnhubGood])
  · exact (claim8_quote_price_positive "AAPL" c8FinnhubGood c8AlphaGood).2.2.1 _
      (by norm_num [alphaGetQuote, c8AlphaGood])
  · exact (claim8_quote_price_positive "AAPL" c8FinnhubZero c8AlphaGood).2.1
      (Or.inr ⟨0, rfl, le_refl 0⟩)
  · exact (claim8_quote_price_positive "AAPL" c8FinnhubGood c8AlphaNeg).2.2.2
      _ rfl (Or.inr ⟨-2, rfl, by norm_num⟩)

/-- Claim C10: with status "ok" and a non-empty timestamp array,
`FinnhubClient.getCandles` emits exactly one candle per upstream
timestamp, in upstream array order, with 0 substituted for any missing
open/high/low/close/volume entry; no sorting or window filtering is
applied (the output depends only on the payload arrays). -/
theorem claim10_finnhub_candles (p : FinnhubCandlePayload) (ts : List Int)
    (hs : p.s = some "ok") (ht : p.t = some ts) (hne : ts ≠ []) :
    ∃ out, finnhubGetCandles p = some out ∧
      out.length = ts.length ∧
      ∀ i, i < ts.length →
        out.getD i ⟨0, 0, 0, 0, 0, 0⟩ =
          ⟨ts.getD i 0, arrAt p.o i, arrAt p.h i, arrAt p.l i,
            arrAt p.c i, arrAt p.v i⟩ := by
  obtain ⟨s, t, o, h, l, c, v⟩ := p
  simp only at hs ht
  subst hs
  subst ht
  have hempty : ts.isEmpty = false := by
    cases ts with
    | nil => exact absurd rfl hne
    | cons a rest => rfl
  refine ⟨ts.enum.map (fun iv =>
      (⟨iv.2, arrAt o iv.1, arrAt h iv.1, arrAt l iv.1, arrAt c iv.1,
        arrAt v iv.1⟩ : Candle)), ?_, ?_, ?_⟩
  · simp [finnhubGetCandles, hempty]
  · simp [List.enum_length]
  · intro i hi
    rw [List.getD_eq_getElem?_getD, List.getElem?_map, List.getElem?_enum,
      List.getElem?_eq_getElem hi]
    simp only [Option.map_some, Option.getD_some]
    rw [List.getD_eq_getElem?_getD, List.getElem?_eq_getElem hi]
    rfl

def c10Payload : FinnhubCandlePayload :=
  { s := some "ok", t := some [5, 3], o := some [1],
    l := some [2, 4] }

/-- Claim C10, instantiated: timestamps `[5, 3]` stay in upstream order
(unsorted), and the missing high/close/volume arrays and the too-short
open array produce candles with zero entries, including zero prices. -/
theorem claim10_witness :
    finnhubGetCandles c10Payload =
      some [⟨5, 1, 0, 2, 0, 0⟩, ⟨3, 0, 0, 4, 0, 0⟩] ∧
    ∃ out, finnhubGetCandles c10Payload = some out ∧
      out.length = 2 ∧
      out.getD 0 ⟨0, 0, 0, 0, 0, 0⟩ = ⟨5, 1, 0, 2, 0, 0⟩ ∧
      out.getD 1 ⟨0, 0, 0, 0, 0, 0⟩ = ⟨3, 0, 0, 4, 0, 0⟩ := by
  obtain ⟨out, hout, hlen, hidx⟩ :=
    claim10_finnhub_candles c10Payload [5, 3] rfl rfl (by decide)
  have h0 := hidx 0 (by norm_num)
  have h1 := hidx 1 (by norm_num)
  refine ⟨?_, out, hout, by simpa using hlen, ?_, ?_⟩
  · rfl
  · rw [h0]; rfl
  · rw [h1]; rfl

/- Helper lemmas for the Alpha Vantage candle normalization. -/

theorem candleLe_trans (a b c : Candle)
    (h1 : candleLe a b = true) (h2 : candleLe b c = true) :
    candleLe a c = true := by
  simp only [candleLe, decide_eq_true_eq] at *
  omega

theorem candleLe_total (a b : Candle) :
    (candleLe a b || candleLe b a) = true := by
  simp only [candleLe, Bool.or_eq_true, decide_eq_true_eq]
  omega

theorem pairwise_lt_of_le_of_ne {l : List Candle}
    (h1 : l.Pairwise (fun a b => candleLe a b = true))
    (h2 : l.Pairwise (fun a b => a.timestamp ≠ b.timestamp)) :
    l.Pairwise (fun a b => a.timestamp < b.timestamp) := by
  induction l with
  | nil => exact List.Pairwise.nil
  | cons a l ih =>
    rw [List.pairwise_cons] at h1 h2 ⊢
    refine ⟨fun b hb => ?_, ih h1.2 h2.2⟩
    have hle := h1.1 b hb
    simp only [candleLe, decide_eq_true_eq] at hle
    exact lt_of_le_of_ne hle (h2.1 b hb)

/-- Claim C7: a non-null `AlphaVantageClient.getCandles` result is a
permutation of the parseable, `[from, to]`-inclusive entries of the
upstream map — whatever order those entries arrive in — and is strictly
ascending by timestamp.  The strictness hypothesis is that the
parseable in-window entries carry pairwise distinct timestamps, which
holds for an upstream map since its keys are distinct timestamp strings
in one canonical format. -/
theorem claim7_alpha_candles_normalized (entries : List SeriesEntry)
    (fromTs toTs : Int) (out : List Candle)
    (hout : alphaGetCandles (some entries) fromTs toTs = some out)
    (hnd : (parsedInWindow entries fromTs toTs).Pairwise
      (fun a b => a.timestamp ≠ b.timestamp)) :
    out.Perm (parsedInWindow entries fromTs toTs) ∧
    out.Pairwise (fun a b => a.timestamp < b.timestamp) ∧
    (∀ c, c ∈ out ↔ c ∈ entries.filterMap parseSeriesEntry ∧
      fromTs ≤ c.timestamp ∧ c.timestamp ≤ toTs) := by
  have hdef : out = (parsedInWindow entries fromTs toTs).mergeSort candleLe := by
    have := hout
    rw [alphaGetCandles] at this
    exact (Option.some.injEq _ _ ▸ this).symm
  subst hdef
  have hperm : ((parsedInWindow entries fromTs toTs).mergeSort candleLe).Perm
      (parsedInWindow entries fromTs toTs) :=
    List.mergeSort_perm _ _
  have hsorted := List.sorted_mergeSort candleLe_trans candleLe_total
    (parsedInWindow entries fromTs toTs)
  have hndout : ((parsedInWindow entries fromTs toTs).mergeSort
      candleLe).Pairwise (fun a b => a.timestamp ≠ b.timestamp) :=
    hnd.perm hperm.symm (fun h => h.symm)
  refine ⟨hperm, pairwise_lt_of_le_of_ne hsorted hndout, ?_⟩
  intro c
  rw [hperm.mem_iff, parsedInWindow, List.mem_filter]
  simp [and_assoc]

def c7Entries : List SeriesEntry :=
  [{ seconds := some 30, opn := some 1, high := some 1, low := some 1,
     close := some 1 },
   { seconds := some 10, opn := some 2, high := some 2, low := some 2,
     close := some 2, vol5 := some 7 },
   { seconds := none, opn := some 9, high := some 9, low := some 9,
     close := some 9 },
   { seconds := some 20, high := some 9, low := some 9, close := some 9 },
   { seconds := some 100, opn := some 3, high := some 3, low := some 3,
     close := some 3 },
   { seconds := some 20, opn := some 4, high := some 4, low := some 4,
     close := some 4, vol6 := some 6 }]

/-- Claim C7, instantiated: an out-of-order upstream map (timestamps
30, 10, an unparseable date, an entry missing its open price, 100 and
20, window [5, 40]) normalizes to a strictly-ascending permutation of
the three parseable in-window candles; the in-window candle with
timestamp 10 is in the output and the out-of-window one (100) is not. -/
theorem claim7_witness :
    ∃ out, alphaGetCandles (some c7Entries) 5 40 = some out ∧
      out.Perm (parsedInWindow c7Entries 5 40) ∧
      out.Pairwise (fun a b => a.timestamp < b.timestamp) ∧
      (⟨10, 2, 2, 2, 2, 7⟩ : Candle) ∈ out ∧
      (⟨100, 3, 3, 3, 3, 0⟩ : Candle) ∉ out := by
  have hnd : (parsedInWindow c7Entries 5 40).Pairwise
      (fun a b => a.timestamp ≠ b.timestamp) := by
    rw [show parsedInWindow c7Entries 5 40 =
        [⟨30, 1, 1, 1, 1, 0⟩, ⟨10, 2, 2, 2, 2, 7⟩, ⟨20, 4, 4, 4, 4, 6⟩] from
      by norm_num [parsedInWindow, c7Entries, parseSeriesEntry,
        List.filterMap_cons, List.filter_cons]]
    norm_num
  obtain ⟨hperm, hpair, hmem⟩ :=
    claim7_alpha_candles_normalized c7Entries 5 40 _ rfl hnd
  refine ⟨_, rfl, hperm, hpair, ?_, ?_⟩
  · refine (hmem _).mpr ⟨?_, by norm_num, by norm_num⟩
    norm_num [c7Entries, parseSeriesEntry]
  · intro hin
    have := ((hmem _).mp hin).2.2
    norm_num at this

end Stock
